import Mathlib

/-!
Verification of the CDC voucher registry and redemption engine.

The Python sources (data_structure.py, merchant_portal.py) are shallowly
embedded below: Python strings become `List Char`, Python dicts become
association lists, file contents become explicit parameters, and fallible
operations return `Option`.  Each definition mirrors one source function.
-/

/-- Python strings are modelled as lists of characters. -/
abbrev Str := List Char

/-- ASCII decimal digit test, as used implicitly by int() and str.isdigit(). -/
def isDigit (c : Char) : Bool := 48 ≤ c.toNat && c.toNat ≤ 57

/-- Numeric value of an ASCII digit character. -/
def digitVal (c : Char) : Nat := c.toNat - 48

/-- ASCII digit character for a value below 10. -/
def digitChar (n : Nat) : Char := Char.ofNat (48 + n)

/-- ASCII whitespace, the characters stripped by str.strip(). -/
def isSpace (c : Char) : Bool :=
  c = ' ' || c = '\t' || c = '\n' || c = '\r' || c = Char.ofNat 11 || c = Char.ofNat 12

/-- Model of str.strip(): remove leading and trailing whitespace. -/
def pyStrip (s : Str) : Str :=
  ((s.dropWhile isSpace).reverse.dropWhile isSpace).reverse

/-- Decimal value of a digit list, accumulating from the left. -/
def listVal (a : Nat) (l : Str) : Nat :=
  l.foldl (fun x c => x * 10 + digitVal c) a

/-- Fuel-driven core of decimal printing (fuel bounds the digit count). -/
def natDigitsGo : Nat → Nat → Str → Str
  | 0, _, acc => acc
  | fuel + 1, n, acc =>
    if n = 0 then acc else natDigitsGo fuel (n / 10) (digitChar (n % 10) :: acc)

/-- Decimal representation of a natural number, as Python str() prints it. -/
def natDigits (n : Nat) : Str :=
  if n = 0 then ['0'] else natDigitsGo n n []

/-- Zero-padding to a given width, as in the format specifier 0Nd. -/
def zfill (w : Nat) (n : Nat) : Str :=
  let ds := natDigits n
  List.replicate (w - ds.length) '0' ++ ds

/-- Python str() of an integer. -/
def intStr (v : Int) : Str :=
  if v < 0 then '-' :: natDigits (-v).toNat else natDigits v.toNat

/-- Zero-padded integer formatting, the sign preceding the pad as in Python. -/
def formatIntPad (w : Nat) (v : Int) : Str :=
  if v < 0 then '-' :: zfill (w - 1) (-v).toNat else zfill w v.toNat

/-- Digit tail of int() parsing: further digits with single underscores allowed
between digits, as Python accepts. -/
def pyDigitsRest : Str → Nat → Option Nat
  | [], acc => some acc
  | c :: cs, acc =>
    if c = '_' then
      match cs with
      | [] => none
      | c2 :: cs2 =>
        if isDigit c2 then pyDigitsRest cs2 (acc * 10 + digitVal c2) else none
    else if isDigit c then pyDigitsRest cs (acc * 10 + digitVal c) else none

/-- Unsigned part of int() parsing: a leading digit then `pyDigitsRest`. -/
def pyParseNat : Str → Option Nat
  | [] => none
  | c :: cs => if isDigit c then pyDigitsRest cs (digitVal c) else none

/-- Model of the Python built-in int() on a string: strip whitespace, optional
sign, then a digit sequence; None models a raised ValueError. -/
def pyInt (s : Str) : Option Int :=
  match pyStrip s with
  | [] => none
  | c :: cs =>
    if c = '+' then (pyParseNat cs).map (fun n => (n : Int))
    else if c = '-' then (pyParseNat cs).map (fun n => -(n : Int))
    else (pyParseNat (c :: cs)).map (fun n => (n : Int))

/-- Model of str.isdigit() restricted to ASCII: nonempty and all digits. -/
def pyIsdigit (s : Str) : Bool := !s.isEmpty && s.all isDigit

/-- Model of str.split on the single-character separator: keeps empty
segments, so the result is always nonempty. -/
def splitOnDash : Str → List Str
  | [] => [[]]
  | c :: cs =>
    if c = '-' then [] :: splitOnDash cs
    else
      match splitOnDash cs with
      | [] => [[c]]
      | p :: ps => (c :: p) :: ps

/-- data_structure.py format_voucher_code: the f-string
V{denom:02d}-{idx:04d}-{household_id}. -/
def format_voucher_code (household_id : Str) (denom idx : Int) : Str :=
  'V' :: formatIntPad 2 denom ++ '-' :: formatIntPad 4 idx ++ '-' :: household_id

/-- data_structure.py parse_voucher_code: strip, split on the separator,
require three segments and the V marker, convert denomination and index with
int(); none models the raised ValueError. -/
def parse_voucher_code (code : Str) : Option (Str × Int × Int) :=
  let parts := splitOnDash (pyStrip code)
  match parts with
  | [p0, p1, p2] =>
    if p0.take 1 = "V".data then
      match pyInt (p0.drop 1), pyInt p1 with
      | some denom, some idx => some (p2, denom, idx)
      | _, _ => none
    else none
  | _ => none

/-- A segment is a valid non-negative integer when int() accepts it with a
non-negative value (the claim vocabulary for the decode failure condition). -/
def validNonNegInt (s : Str) : Prop := ∃ n : Nat, pyInt s = some (n : Int)

/-- The malformed-code condition exactly as the claim words it: segment count
different from three, missing V marker, or a denomination or index segment
that is not a valid non-negative integer. -/
def malformedCode (code : Str) : Prop :=
  let parts := splitOnDash (pyStrip code)
  parts.length ≠ 3 ∨ (parts.getD 0 []).take 1 ≠ "V".data ∨
    ¬ validNonNegInt ((parts.getD 0 []).drop 1) ∨ ¬ validNonNegInt (parts.getD 1 [])

/-- Lookup in an association-list model of a Python dict: first match wins
(keys are unique whenever the list was built by alSet alone). -/
def alGet {α : Type} (m : List (Str × α)) (k : Str) : Option α :=
  match m with
  | [] => none
  | (k1, v) :: rest => if k1 = k then some v else alGet rest k

/-- Dict item assignment: replace the value in place or append a new pair. -/
def alSet {α : Type} (m : List (Str × α)) (k : Str) (v : α) : List (Str × α) :=
  match m with
  | [] => [(k, v)]
  | (k1, v1) :: rest => if k1 = k then (k, v) :: rest else (k1, v1) :: alSet rest k v

/-- Model of dict.update: every pair of the argument is assigned in order. -/
def alUpdate {α : Type} : List (Str × α) → List (Str × α) → List (Str × α)
  | m, [] => m
  | m, kv :: rest => alUpdate (alSet m kv.1 kv.2) rest

/-- Per-household pools: denomination rendered as a string, mapped to the
0/1 usage list. -/
abbrev Pools := List (Str × List Nat)

/-- household_voucher_state: household identifier mapped to its pools. -/
abbrev PoolState := List (Str × Pools)

/-- The read household_voucher_state.get(hid, dict()).get(str(denom), list())
performed during redemption validation. -/
def poolGet (S : PoolState) (h ds : Str) : List Nat :=
  match alGet S h with
  | none => []
  | some pools => (alGet pools ds).getD []

/-- The entry of one voucher position, none when household, denomination or
index is absent. -/
def posVal (S : PoolState) (h ds : Str) (j : Nat) : Option Nat :=
  (poolGet S h ds)[j]?

/-- The committing write household_voucher_state[hid][str(denom)][idx] = 1.
The none branches are unreachable in redeem, which validates presence first;
Python would raise KeyError there. -/
def setUsed (S : PoolState) (h ds : Str) (j : Nat) : PoolState :=
  match alGet S h with
  | none => S
  | some pools =>
    match alGet pools ds with
    | none => S
    | some lst => alSet S h (alSet pools ds (lst.set j 1))

/-- data_structure.py load_voucher_state, file content passed explicitly:
none is a missing file, some none a JSON value that is not a dict (the
isinstance guard), some (some data) a parsed dict merged via dict.update. -/
def load_voucher_state (mem : PoolState) (file : Option (Option PoolState)) : PoolState :=
  match file with
  | none => mem
  | some none => mem
  | some (some data) => alUpdate mem data

/-- In-memory registry state of data_structure.py HouseholdRegistry. -/
structure Registry where
  fin_to_household : List (Str × Str)
  household_voucher_state : PoolState
  voucher_counts : List (Int × Nat)
deriving DecidableEq

/-- data_structure.py normalize_fin: strip then uppercase. -/
def normalize_fin (s : Str) : Str := (pyStrip s).map Char.toUpper

/-- The scan of get_next_household_id: running maximum of the numeric
suffixes of identifiers shaped H followed by digits. listVal 0 is int() on
a string str.isdigit() accepted. -/
def hidMax : List Str → Nat → Nat
  | [], acc => acc
  | hid :: rest, acc =>
    if hid.take 1 = "H".data && pyIsdigit (hid.drop 1) then
      hidMax rest (max acc (listVal 0 (hid.drop 1)))
    else hidMax rest acc

/-- data_structure.py get_next_household_id. -/
def get_next_household_id (m : List (Str × Str)) : Str :=
  if m = [] then "H0001".data
  else "H".data ++ zfill 4 (hidMax (m.map Prod.snd) 0 + 1)

/-- data_structure.py init_voucher_state: a fresh all-zero pool per
configured denomination. -/
def init_voucher_state (r : Registry) (hid : Str) : Registry :=
  let pools := r.voucher_counts.map (fun dc => (intStr dc.1, List.replicate dc.2 0))
  { r with household_voucher_state := alSet r.household_voucher_state hid pools }

/-- data_structure.py register_household: returns the tuple
(fin, household_id, already_registered, error) and the updated state; the
persistence calls touch only the disk and are omitted. -/
def register_household (r : Registry) (fin_raw : Str) :
    (Str × Str × Bool × Option Str) × Registry :=
  let fin := normalize_fin fin_raw
  if fin = [] then (([], [], false, some "FIN is required.".data), r)
  else
    match alGet r.fin_to_household fin with
    | some hid =>
      let r2 := if (alGet r.household_voucher_state hid).isNone
        then init_voucher_state r hid else r
      ((fin, hid, true, none), r2)
    | none =>
      let hid := get_next_household_id r.fin_to_household
      let r2 := { r with fin_to_household := alSet r.fin_to_household fin hid }
      let r3 := init_voucher_state r2 hid
      ((fin, hid, false, none), r3)

/-- Modelled from the spec, section 4.1 nextId: scan the identifiers
matching the given leading tag followed by digits, take the maximum numeric
suffix, and return the tag with max plus one zero-padded to the width. -/
def specNextId (pre : Str) (width : Nat) (existing : List Str) : Str :=
  let nums := existing.filterMap (fun s =>
    if s.take pre.length = pre && pyIsdigit (s.drop pre.length)
    then some (listVal 0 (s.drop pre.length)) else none)
  pre ++ zfill width (nums.foldl max 0 + 1)

/-- One row of transactions.csv as written by redeem. -/
structure LedgerLine where
  transaction_id : Str
  household_id : Str
  merchant_id : Str
  date_time : Str
  voucher_code : Str
  denomination_used : Str
  amount_redeemed : Str
  payment_status : Str
  remarks : Str
deriving DecidableEq

/-- The scan of get_next_transaction_id: running maximum of numeric suffixes
of TX identifiers, updated only on strict increase as in the source. -/
def txMax : List LedgerLine → Nat → Nat
  | [], acc => acc
  | row :: rest, acc =>
    if row.transaction_id.take 2 = "TX".data && pyIsdigit (row.transaction_id.drop 2) then
      let cur := listVal 0 (row.transaction_id.drop 2)
      if cur > acc then txMax rest cur else txMax rest acc
    else txMax rest acc

/-- merchant_portal.py get_next_transaction_id over the existing data rows. -/
def get_next_transaction_id (rows : List LedgerLine) : Str :=
  "TX".data ++ zfill 5 (txMax rows 0 + 1)

/-- One record of activations.json. -/
structure Activation where
  barcode : Str
  voucher_codes : List Str
deriving DecidableEq

/-- The first-match scan over activation records in redeem. -/
def findActivation : List Activation → Str → Option Activation
  | [], _ => none
  | r :: rs, b => if r.barcode = b then some r else findActivation rs b

/-- One entry of the valid_vouchers_details list built during validation;
idx holds the 0-based array index. -/
structure VDetail where
  code : Str
  denom : Int
  hid : Str
  idx : Int
deriving DecidableEq

/-- Outcome of the validation loop of redeem. -/
inductive LoopResult where
  | formatError
  | outOfRange (code : Str)
  | alreadyUsed
  | ok (details : List VDetail) (total : Int)
deriving DecidableEq

/-- The validation loop of redeem (merchant_portal.py lines 258 to 282):
decode each code, bounds-check its position, break on a used position,
otherwise accumulate the detail and the running total. -/
def scanBundle (S : PoolState) : List Str → List VDetail → Int → LoopResult
  | [], acc, total => .ok acc total
  | code :: rest, acc, total =>
    match parse_voucher_code code with
    | none => .formatError
    | some (hid, denom, idx) =>
      let aidx := idx - 1
      let lst := poolGet S hid (intStr denom)
      if aidx < 0 ∨ (lst.length : Int) ≤ aidx then .outOfRange code
      else if lst.getD aidx.toNat 0 = 1 then .alreadyUsed
      else scanBundle S rest (acc ++ [⟨code, denom, hid, aidx⟩]) (total + denom)

/-- Outcome of a redeem call, one constructor per render_result branch. -/
inductive RedeemResult where
  | noActivations
  | invalidBarcode
  | emptyVoucher
  | formatError
  | outOfRange (code : Str)
  | alreadyRedeemed
  | success (txId : Str) (total : Int)
deriving DecidableEq

/-- The ledger-writing loop of redeem: one row per detail, the last row
remarked distinctly, every row sharing transaction id, time and total. -/
def mkLinesAux (txId mid time : Str) (total : Int) (count : Nat) :
    Nat → List VDetail → List LedgerLine
  | _, [] => []
  | i, item :: rest =>
    { transaction_id := txId
      household_id := item.hid
      merchant_id := mid
      date_time := time
      voucher_code := item.code
      denomination_used := '$' :: intStr item.denom ++ ".00".data
      amount_redeemed := '$' :: intStr total ++ ".00".data
      payment_status := "Completed".data
      remarks := if i = count - 1 then "Final denomination used".data
        else natDigits (i + 1) } :: mkLinesAux txId mid time total count (i + 1) rest

/-- merchant_portal.py redeem, files passed explicitly: activations.json as
an optional record list (none is a missing file), the in-memory voucher
state plus the voucher_state.json content consumed by load_voucher_state,
and the existing transactions.csv rows.  Returns the rendered outcome, the
resulting in-memory voucher state and the resulting ledger rows. -/
def redeem (merchant_id barcode_raw : Str) (activations : Option (List Activation))
    (mem : PoolState) (stateFile : Option (Option PoolState)) (rows : List LedgerLine)
    (tx_time : Str) : RedeemResult × PoolState × List LedgerLine :=
  let barcode_input := pyStrip barcode_raw
  match activations with
  | none => (.noActivations, mem, rows)
  | some recs =>
    match findActivation recs barcode_input with
    | none => (.invalidBarcode, mem, rows)
    | some rec =>
      if rec.voucher_codes = [] then (.emptyVoucher, mem, rows)
      else
        let S := load_voucher_state mem stateFile
        match scanBundle S rec.voucher_codes [] 0 with
        | .formatError => (.formatError, S, rows)
        | .outOfRange code => (.outOfRange code, S, rows)
        | .alreadyUsed => (.alreadyRedeemed, S, rows)
        | .ok details total =>
          let S2 := details.foldl
            (fun s d => setUsed s d.hid (intStr d.denom) d.idx.toNat) S
          let tx_id := get_next_transaction_id rows
          (.success tx_id total, S2,
            rows ++ mkLinesAux tx_id merchant_id tx_time total details.length 0 details)

/-- A code that decodes to an in-bounds position currently holding 0. -/
def ValidUnused (S : PoolState) (c : Str) : Prop :=
  ∃ h d i, parse_voucher_code c = some (h, d, i) ∧ 0 ≤ i - 1 ∧
    i - 1 < ((poolGet S h (intStr d)).length : Int) ∧
    (poolGet S h (intStr d)).getD (i - 1).toNat 0 = 0

/-- A code that decodes to an in-bounds position already marked used. -/
def UsedAt (S : PoolState) (c : Str) : Prop :=
  ∃ h d i, parse_voucher_code c = some (h, d, i) ∧ 0 ≤ i - 1 ∧
    i - 1 < ((poolGet S h (intStr d)).length : Int) ∧
    (poolGet S h (intStr d)).getD (i - 1).toNat 0 = 1

/-- Sum of the decoded denominations across a bundle, multiplicity included. -/
def sumDenoms (codes : List Str) : Int :=
  (codes.filterMap (fun c => (parse_voucher_code c).map (fun t => t.2.1))).sum

/-- The pool coordinate a code denotes: household, denomination as rendered
in the state keys, and 0-based index. -/
def codePos (c : Str) : Option (Str × Str × Nat) :=
  (parse_voucher_code c).map (fun t => (t.1, intStr t.2.1, (t.2.2 - 1).toNat))

/-- The detail entry the validation loop records for a decodable code. -/
def detOf (c : Str) : Option VDetail :=
  (parse_voucher_code c).map (fun t => ⟨c, t.2.1, t.1, t.2.2 - 1⟩)

/-- Fixture: a household with three one-voucher pools, all unused. -/
def memFresh : PoolState :=
  [("H0001".data, [("2".data, [0]), ("5".data, [0]), ("10".data, [0])])]

/-- Fixture: the activation binding barcode 123 to a fresh 3-voucher bundle
of denominations 2, 5 and 10. -/
def actsFresh : List Activation :=
  [⟨"123".data, ["V02-0001-H0001".data, "V05-0001-H0001".data, "V10-0001-H0001".data]⟩]

/-- Fixture: a household whose denomination-2 pool has position 1 used. -/
def memSecondUsed : PoolState := [("H0001".data, [("2".data, [0, 1])])]

/-- Fixture: activation of a valid unused code followed by the used one. -/
def actsSecondUsed : List Activation :=
  [⟨"123".data, ["V02-0001-H0001".data, "V02-0002-H0001".data]⟩]

/-- Fixture: a household whose single denomination-2 voucher is used. -/
def memUsed : PoolState := [("H0001".data, [("2".data, [1])])]

/-- Fixture: activation of a malformed code followed by the used code. -/
def actsMalformedUsed : List Activation :=
  [⟨"123".data, ["XX".data, "V02-0001-H0001".data]⟩]

/-- Fixture: a two-voucher denomination-2 pool, all unused. -/
def memTwo : PoolState := [("H0001".data, [("2".data, [0, 0])])]

/-- Fixture: activation repeating one voucher code twice in one bundle. -/
def actsDup : List Activation :=
  [⟨"123".data, ["V02-0001-H0001".data, "V02-0001-H0001".data]⟩]

/-- Fixture: a denomination-2 pool of the configured length 80. -/
def mem80 : PoolState := [("H0001".data, [("2".data, List.replicate 80 0)])]

/-- Fixture: activation of the out-of-range 1-based index 81. -/
def acts81 : List Activation := [⟨"123".data, ["V02-0081-H0001".data]⟩]

/-- Fixture: a minimal registry configured with a single one-voucher pool. -/
def regEmpty : Registry := ⟨[], [], [((2 : Int), 1)]⟩

theorem digitChar_isDigit {m : Nat} (h : m < 10) : isDigit (digitChar m) = true := by
  interval_cases m <;> decide

theorem digitVal_digitChar {m : Nat} (h : m < 10) : digitVal (digitChar m) = m := by
  interval_cases m <;> decide

theorem natDigitsGo_append : ∀ fuel n acc, natDigitsGo fuel n acc = natDigitsGo fuel n [] ++ acc := by
  intro fuel
  induction fuel with
  | zero => intro n acc; simp [natDigitsGo]
  | succ f ih =>
    intro n acc
    by_cases hn : n = 0
    · simp [natDigitsGo, hn]
    · simp only [natDigitsGo, if_neg hn]
      rw [ih (n / 10) (digitChar (n % 10) :: acc), ih (n / 10) [digitChar (n % 10)]]
      simp

theorem natDigitsGo_zero : ∀ fuel acc, natDigitsGo fuel 0 acc = acc := by
  intro fuel acc; cases fuel <;> simp [natDigitsGo]

theorem natDigitsGo_digits : ∀ fuel n acc, (∀ c ∈ acc, isDigit c = true) →
    ∀ c ∈ natDigitsGo fuel n acc, isDigit c = true := by
  intro fuel
  induction fuel with
  | zero => intro n acc hacc; simpa [natDigitsGo] using hacc
  | succ f ih =>
    intro n acc hacc
    by_cases hn : n = 0
    · simpa [natDigitsGo, hn] using hacc
    · simp only [natDigitsGo, if_neg hn]
      refine ih (n / 10) _ ?_
      intro c hc
      rcases List.mem_cons.mp hc with h | h
      · subst h; exact digitChar_isDigit (Nat.mod_lt _ (by omega))
      · exact hacc c h

theorem listVal_append (a : Nat) (l1 l2 : Str) :
    listVal a (l1 ++ l2) = listVal (listVal a l1) l2 := by
  simp [listVal, List.foldl_append]

theorem natDigitsGo_val : ∀ fuel n, n ≤ fuel → ∀ a,
    listVal a (natDigitsGo fuel n []) =
      if n = 0 then a else a * 10 ^ (natDigitsGo fuel n []).length + n := by
  intro fuel
  induction fuel with
  | zero => intro n hn a; interval_cases n; simp [natDigitsGo, listVal]
  | succ f ih =>
    intro n hn a
    by_cases hn0 : n = 0
    · simp [natDigitsGo, hn0, listVal]
    · simp only [natDigitsGo, if_neg hn0]
      rw [natDigitsGo_append, listVal_append]
      have hmod : digitVal (digitChar (n % 10)) = n % 10 :=
        digitVal_digitChar (show n % 10 < 10 by omega)
      have hone : ∀ b : Nat, listVal b [digitChar (n % 10)] = b * 10 + n % 10 := by
        intro b; simp [listVal, hmod]
      by_cases hq : n / 10 = 0
      · have hlt : n < 10 := by omega
        rw [hq, natDigitsGo_zero]
        have e1 : listVal a ([] : Str) = a := rfl
        rw [e1, hone]
        have e2 : (([] : Str) ++ [digitChar (n % 10)]).length = 1 := rfl
        rw [e2, pow_one, Nat.mod_eq_of_lt hlt]
      · have hq_le : n / 10 ≤ f := by
          have := Nat.div_lt_self (Nat.pos_of_ne_zero hn0) (show 1 < 10 by norm_num)
          omega
        rw [ih (n / 10) hq_le a, if_neg hq, hone]
        have e2 : ((natDigitsGo f (n / 10) [] ++ [digitChar (n % 10)]) : Str).length
            = (natDigitsGo f (n / 10) []).length + 1 := by simp
        rw [e2]
        set k := (natDigitsGo f (n / 10) []).length with hk
        calc (a * 10 ^ k + n / 10) * 10 + n % 10
            = a * 10 ^ (k + 1) + (10 * (n / 10) + n % 10) := by ring
          _ = a * 10 ^ (k + 1) + n := by rw [Nat.div_add_mod]

theorem natDigits_digits (n : Nat) : ∀ c ∈ natDigits n, isDigit c = true := by
  by_cases hn : n = 0
  · subst hn; intro c hc; simp [natDigits] at hc; subst hc; decide
  · simp only [natDigits, if_neg hn]
    exact natDigitsGo_digits n n [] (by simp)

theorem natDigits_ne_nil (n : Nat) : natDigits n ≠ [] := by
  by_cases hn : n = 0
  · simp [natDigits, hn]
  · simp only [natDigits, if_neg hn]
    obtain ⟨m, rfl⟩ := Nat.exists_eq_succ_of_ne_zero hn
    simp only [natDigitsGo, if_neg hn]
    rw [natDigitsGo_append]
    simp

theorem natDigits_val (n : Nat) : listVal 0 (natDigits n) = n := by
  by_cases hn : n = 0
  · simp [natDigits, hn, listVal, digitVal]
  · simp only [natDigits, if_neg hn]
    rw [natDigitsGo_val n n le_rfl 0]
    simp [hn]

theorem isDigit_ne_underscore {c : Char} (h : isDigit c = true) : c ≠ '_' := by
  intro he; rw [he] at h; exact absurd h (by decide)

theorem isDigit_not_space {c : Char} (h : isDigit c = true) : isSpace c = false := by
  cases hb : isSpace c
  · rfl
  · exfalso
    simp only [isSpace, Bool.or_eq_true, decide_eq_true_eq] at hb
    rcases hb with ((((h1 | h1) | h1) | h1) | h1) | h1 <;> rw [h1] at h <;>
      exact absurd h (by decide)

theorem isDigit_ne_plus {c : Char} (h : isDigit c = true) : c ≠ '+' := by
  intro he; rw [he] at h; exact absurd h (by decide)

theorem isDigit_ne_minus {c : Char} (h : isDigit c = true) : c ≠ '-' := by
  intro he; rw [he] at h; exact absurd h (by decide)

theorem pyDigitsRest_cons_ne (c : Char) (cs : Str) (acc : Nat) (hne : c ≠ '_') :
    pyDigitsRest (c :: cs) acc =
      if isDigit c then pyDigitsRest cs (acc * 10 + digitVal c) else none := by
  cases cs <;> simp [pyDigitsRest, hne]

theorem pyDigitsRest_digits : ∀ cs : Str, ∀ acc, (∀ c ∈ cs, isDigit c = true) →
    pyDigitsRest cs acc = some (listVal acc cs) := by
  intro cs
  induction cs with
  | nil => intro acc _; simp [pyDigitsRest, listVal]
  | cons c cs ih =>
    intro acc h
    have hc : isDigit c = true := h c (by simp)
    have hrest : ∀ x ∈ cs, isDigit x = true := fun x hx => h x (by simp [hx])
    rw [pyDigitsRest_cons_ne c cs acc (isDigit_ne_underscore hc), if_pos hc]
    rw [ih (acc * 10 + digitVal c) hrest]
    simp [listVal]

theorem pyParseNat_digits (cs : Str) (h1 : cs ≠ []) (h2 : ∀ c ∈ cs, isDigit c = true) :
    pyParseNat cs = some (listVal 0 cs) := by
  cases cs with
  | nil => exact absurd rfl h1
  | cons c rest =>
    have hc : isDigit c = true := h2 c (by simp)
    simp only [pyParseNat, if_pos hc]
    rw [pyDigitsRest_digits rest (digitVal c) (fun x hx => h2 x (by simp [hx]))]
    simp [listVal]

theorem dropWhile_of_head (p : Char → Bool) : ∀ l : Str,
    (∀ c, l.head? = some c → p c = false) → l.dropWhile p = l := by
  intro l h
  cases l with
  | nil => rfl
  | cons c t => simp [List.dropWhile, h c rfl]

theorem pyStrip_of_ends (l : Str)
    (h1 : ∀ c, l.head? = some c → isSpace c = false)
    (h2 : ∀ c, l.getLast? = some c → isSpace c = false) : pyStrip l = l := by
  unfold pyStrip
  rw [dropWhile_of_head isSpace l h1]
  rw [dropWhile_of_head isSpace l.reverse (by simpa using h2)]
  exact l.reverse_reverse

theorem pyStrip_eq_self (l : Str) (h : ∀ c ∈ l, isSpace c = false) : pyStrip l = l := by
  refine pyStrip_of_ends l ?_ ?_
  · intro c hc; exact h c (by
      cases l with
      | nil => simp at hc
      | cons x t => simp at hc; simp [hc])
  · intro c hc; exact h c (List.mem_of_mem_getLast? (Option.mem_def.mpr hc))

theorem listVal_zero_replicate : ∀ k, listVal 0 (List.replicate k '0') = 0 := by
  intro k
  induction k with
  | zero => rfl
  | succ m ih => simpa [List.replicate_succ, listVal] using ih

theorem zfill_digits (w n : Nat) : ∀ c ∈ zfill w n, isDigit c = true := by
  intro c hc
  simp only [zfill] at hc
  rcases List.mem_append.mp hc with h | h
  · rw [List.eq_of_mem_replicate h]; decide
  · exact natDigits_digits n c h

theorem zfill_ne_nil (w n : Nat) : zfill w n ≠ [] := by
  simp [zfill, natDigits_ne_nil n]

theorem listVal_zfill (w n : Nat) : listVal 0 (zfill w n) = n := by
  simp only [zfill]
  rw [listVal_append, listVal_zero_replicate, natDigits_val]

theorem pyInt_digits (l : Str) (h1 : l ≠ []) (h2 : ∀ c ∈ l, isDigit c = true) :
    pyInt l = some ((listVal 0 l : Nat) : Int) := by
  have hs : pyStrip l = l := pyStrip_eq_self l (fun c hc => isDigit_not_space (h2 c hc))
  unfold pyInt
  rw [hs]
  cases l with
  | nil => exact absurd rfl h1
  | cons c rest =>
    have hc : isDigit c = true := h2 c (by simp)
    simp only [if_neg (isDigit_ne_plus hc), if_neg (isDigit_ne_minus hc)]
    rw [pyParseNat_digits (c :: rest) (by simp) h2]
    rfl

theorem pyInt_zfill (w n : Nat) : pyInt (zfill w n) = some (n : Int) := by
  rw [pyInt_digits (zfill w n) (zfill_ne_nil w n) (zfill_digits w n), listVal_zfill]

theorem natDigits_no_dash (n : Nat) : '-' ∉ natDigits n := by
  intro h
  exact absurd (natDigits_digits n '-' h) (by decide)

theorem zfill_no_dash (w n : Nat) : '-' ∉ zfill w n := by
  intro h
  exact absurd (zfill_digits w n '-' h) (by decide)

theorem splitOnDash_ne_nil : ∀ l : Str, splitOnDash l ≠ [] := by
  intro l
  cases l with
  | nil => simp [splitOnDash]
  | cons c cs =>
    simp only [splitOnDash]
    by_cases hc : c = '-'
    · simp [hc]
    · simp only [if_neg hc]
      cases h : splitOnDash cs <;> simp

theorem splitOnDash_no_dash : ∀ l : Str, '-' ∉ l → splitOnDash l = [l] := by
  intro l
  induction l with
  | nil => intro _; rfl
  | cons c cs ih =>
    intro h
    have hc : c ≠ '-' := fun he => h (by simp [he])
    have hcs : '-' ∉ cs := fun hm => h (by simp [hm])
    simp only [splitOnDash, if_neg (fun he => hc he)]
    rw [ih hcs]

theorem splitOnDash_append : ∀ a b : Str, '-' ∉ a →
    splitOnDash (a ++ '-' :: b) = a :: splitOnDash b := by
  intro a
  induction a with
  | nil => intro b _; simp [splitOnDash]
  | cons c cs ih =>
    intro b h
    have hc : c ≠ '-' := fun he => h (by simp [he])
    have hcs : '-' ∉ cs := fun hm => h (by simp [hm])
    simp only [List.cons_append, splitOnDash, if_neg (fun he => hc he), List.append_eq]
    rw [ih b hcs]

theorem mem_splitOnDash_no_dash : ∀ l : Str, ∀ p ∈ splitOnDash l, '-' ∉ p := by
  intro l
  induction l with
  | nil =>
    intro p hp
    simp [splitOnDash] at hp
    simp [hp]
  | cons c cs ih =>
    intro p hp
    simp only [splitOnDash] at hp
    by_cases hc : c = '-'
    · rw [if_pos hc] at hp
      rcases List.mem_cons.mp hp with h | h
      · simp [h]
      · exact ih p h
    · rw [if_neg hc] at hp
      cases hsp : splitOnDash cs with
      | nil => exact absurd hsp (splitOnDash_ne_nil cs)
      | cons q qs =>
        rw [hsp] at hp
        rcases List.mem_cons.mp hp with h | h
        · subst h
          intro hm
          rcases List.mem_cons.mp hm with h2 | h2
          · exact hc h2.symm
          · exact ih q (by rw [hsp]; simp) h2
        · exact ih p (by rw [hsp]; simp [h])

theorem pyStrip_subset (l : Str) : ∀ c ∈ pyStrip l, c ∈ l := by
  intro c hc
  unfold pyStrip at hc
  rw [List.mem_reverse] at hc
  have h1 : c ∈ (l.dropWhile isSpace).reverse := List.dropWhile_subset _ hc
  rw [List.mem_reverse] at h1
  exact List.dropWhile_subset _ h1

theorem pyInt_nil (s : Str) (hst : pyStrip s = []) : pyInt s = none := by
  unfold pyInt
  rw [hst]

theorem pyInt_cons (s : Str) (c : Char) (cs : Str) (hst : pyStrip s = c :: cs) :
    pyInt s = if c = '+' then (pyParseNat cs).map (fun n => (n : Int))
      else if c = '-' then (pyParseNat cs).map (fun n => -(n : Int))
      else (pyParseNat (c :: cs)).map (fun n => (n : Int)) := by
  unfold pyInt
  rw [hst]

theorem pyInt_nonneg {s : Str} (hnd : '-' ∉ s) {v : Int} (h : pyInt s = some v) : 0 ≤ v := by
  cases hst : pyStrip s with
  | nil => rw [pyInt_nil s hst] at h; simp at h
  | cons c cs =>
    rw [pyInt_cons s c cs hst] at h
    have hmem : c ∈ s := pyStrip_subset s c (by rw [hst]; simp)
    have hminus : c ≠ '-' := fun he => hnd (he ▸ hmem)
    by_cases hplus : c = '+'
    · rw [if_pos hplus] at h
      cases hp : pyParseNat cs with
      | none => rw [hp] at h; simp at h
      | some n => rw [hp] at h; simp at h; omega
    · rw [if_neg hplus, if_neg hminus] at h
      cases hp : pyParseNat (c :: cs) with
      | none => rw [hp] at h; simp at h
      | some n => rw [hp] at h; simp at h; omega

theorem validNonNegInt_iff {s : Str} (hnd : '-' ∉ s) :
    validNonNegInt s ↔ (pyInt s).isSome = true := by
  constructor
  · rintro ⟨n, hn⟩; simp [hn]
  · intro hs
    cases hp : pyInt s with
    | none => rw [hp] at hs; simp at hs
    | some v =>
      have hv := pyInt_nonneg hnd hp
      exact ⟨v.toNat, by rw [hp, Int.toNat_of_nonneg hv]⟩

theorem format_eq_append (h : Str) (d i : Int) (hd : 0 ≤ d) (hi : 0 ≤ i) :
    format_voucher_code h d i =
      ('V' :: zfill 2 d.toNat) ++ '-' :: (zfill 4 i.toNat ++ '-' :: h) := by
  unfold format_voucher_code formatIntPad
  rw [if_neg (by omega), if_neg (by omega)]
  simp

theorem parse_format_core (h : Str) (hne : h ≠ []) (hnd : '-' ∉ h)
    (hlast : ∀ c, h.getLast? = some c → isSpace c = false)
    (d i : Int) (hd : 0 ≤ d) (hi : 0 ≤ i) :
    parse_voucher_code (format_voucher_code h d i) = some (h, d, i) := by
  rw [format_eq_append h d i hd hi]
  have hA : '-' ∉ ('V' :: zfill 2 d.toNat) := by
    intro hm
    rcases List.mem_cons.mp hm with h1 | h1
    · exact absurd h1 (by decide)
    · exact zfill_no_dash 2 d.toNat h1
  have hstrip : pyStrip (('V' :: zfill 2 d.toNat) ++ '-' :: (zfill 4 i.toNat ++ '-' :: h))
      = ('V' :: zfill 2 d.toNat) ++ '-' :: (zfill 4 i.toNat ++ '-' :: h) := by
    apply pyStrip_of_ends
    · intro c hc
      simp at hc
      rw [← hc]
      decide
    · intro c hc
      have hrw : (('V' :: zfill 2 d.toNat) ++ '-' :: (zfill 4 i.toNat ++ '-' :: h))
          = (('V' :: zfill 2 d.toNat) ++ '-' :: zfill 4 i.toNat ++ ['-']) ++ h := by
        simp
      rw [hrw, List.getLast?_append_of_ne_nil _ hne] at hc
      exact hlast c hc
  unfold parse_voucher_code
  rw [hstrip]
  have hsplit : splitOnDash (('V' :: zfill 2 d.toNat) ++ '-' :: (zfill 4 i.toNat ++ '-' :: h))
      = [('V' :: zfill 2 d.toNat), zfill 4 i.toNat, h] := by
    rw [splitOnDash_append _ _ hA, splitOnDash_append _ _ (zfill_no_dash 4 i.toNat),
      splitOnDash_no_dash h hnd]
  have htake : ('V' :: zfill 2 d.toNat).take 1 = "V".data := by simp
  have hdrop : ('V' :: zfill 2 d.toNat).drop 1 = zfill 2 d.toNat := by simp
  simp only [hsplit, hdrop, if_pos htake, pyInt_zfill, Int.toNat_of_nonneg hd,
    Int.toNat_of_nonneg hi]

theorem parse_none_of_len (code : Str)
    (hlen : (splitOnDash (pyStrip code)).length ≠ 3) :
    parse_voucher_code code = none := by
  unfold parse_voucher_code
  cases hsp : splitOnDash (pyStrip code) with
  | nil => rfl
  | cons p0 t0 =>
    cases t0 with
    | nil => rfl
    | cons p1 t1 =>
      cases t1 with
      | nil => rfl
      | cons p2 t2 =>
        cases t2 with
        | nil => rw [hsp] at hlen; simp at hlen
        | cons p3 t3 => rfl

theorem parse_three (code : Str) (p0 p1 p2 : Str)
    (hsp : splitOnDash (pyStrip code) = [p0, p1, p2]) :
    parse_voucher_code code =
      (if p0.take 1 = "V".data then
        match pyInt (p0.drop 1), pyInt p1 with
        | some denom, some idx => some (p2, denom, idx)
        | _, _ => none
      else none) := by
  unfold parse_voucher_code
  rw [hsp]

/-- C6: parse_voucher_code fails exactly for malformed codes and otherwise
returns the triple read off the three segments of the stripped code. -/
theorem parse_voucher_code_spec (code : Str) :
    (parse_voucher_code code = none ↔ malformedCode code) ∧
    (∀ h d i, parse_voucher_code code = some (h, d, i) →
      h = (splitOnDash (pyStrip code)).getD 2 [] ∧
      pyInt (((splitOnDash (pyStrip code)).getD 0 []).drop 1) = some d ∧
      pyInt ((splitOnDash (pyStrip code)).getD 1 []) = some i) := by
  by_cases hlen : (splitOnDash (pyStrip code)).length = 3
  · obtain ⟨p0, p1, p2, hsp⟩ : ∃ p0 p1 p2, splitOnDash (pyStrip code) = [p0, p1, p2] := by
      cases hsp : splitOnDash (pyStrip code) with
      | nil => rw [hsp] at hlen; simp at hlen
      | cons a t0 =>
        cases t0 with
        | nil => rw [hsp] at hlen; simp at hlen
        | cons b t1 =>
          cases t1 with
          | nil => rw [hsp] at hlen; simp at hlen
          | cons c t2 =>
            cases t2 with
            | nil => exact ⟨a, b, c, rfl⟩
            | cons e t3 => rw [hsp] at hlen; simp at hlen
    have hp0 : '-' ∉ p0 := mem_splitOnDash_no_dash _ p0 (by rw [hsp]; simp)
    have hp1 : '-' ∉ p1 := mem_splitOnDash_no_dash _ p1 (by rw [hsp]; simp)
    have hp0d : '-' ∉ p0.drop 1 := fun hm => hp0 (List.drop_subset 1 p0 hm)
    have hpt := parse_three code p0 p1 p2 hsp
    by_cases htake : p0.take 1 = "V".data
    · rw [if_pos htake] at hpt
      cases hd : pyInt (p0.drop 1) with
      | none =>
        rw [hd] at hpt
        have hnone : parse_voucher_code code = none := by rw [hpt]
        have hmal : malformedCode code := by
          simp only [malformedCode, hsp]
          refine Or.inr (Or.inr (Or.inl ?_))
          rintro ⟨n, hn⟩
          simp only [List.getD_cons_zero] at hn
          rw [hd] at hn
          exact Option.noConfusion hn
        refine ⟨⟨fun _ => hmal, fun _ => hnone⟩, ?_⟩
        intro h d i hsome
        rw [hsome] at hnone
        exact Option.noConfusion hnone
      | some dv =>
        cases hi : pyInt p1 with
        | none =>
          rw [hd, hi] at hpt
          have hnone : parse_voucher_code code = none := by rw [hpt]
          have hmal : malformedCode code := by
            simp only [malformedCode, hsp]
            refine Or.inr (Or.inr (Or.inr ?_))
            rintro ⟨n, hn⟩
            simp only [List.getD_cons_succ, List.getD_cons_zero] at hn
            rw [hi] at hn
            exact Option.noConfusion hn
          refine ⟨⟨fun _ => hmal, fun _ => hnone⟩, ?_⟩
          intro h d i hsome
          rw [hsome] at hnone
          exact Option.noConfusion hnone
        | some iv =>
          rw [hd, hi] at hpt
          constructor
          · constructor
            · intro hcontra
              rw [hpt] at hcontra
              exact Option.noConfusion hcontra
            · intro hmal
              exfalso
              simp only [malformedCode, hsp] at hmal
              rcases hmal with h1 | h1 | h1 | h1
              · simp at h1
              · simp at h1
                exact h1 htake
              · refine h1 ?_
                simp only [List.getD_cons_zero]
                have hnn := pyInt_nonneg hp0d hd
                exact ⟨dv.toNat, by rw [hd, Int.toNat_of_nonneg hnn]⟩
              · refine h1 ?_
                simp only [List.getD_cons_succ, List.getD_cons_zero]
                have hnn := pyInt_nonneg hp1 hi
                exact ⟨iv.toNat, by rw [hi, Int.toNat_of_nonneg hnn]⟩
          · intro h d i hsome
            rw [hpt] at hsome
            simp only [Option.some.injEq, Prod.mk.injEq] at hsome
            obtain ⟨h1, h2, h3⟩ := hsome
            subst h1; subst h2; subst h3
            refine ⟨by rw [hsp]; simp, ?_, ?_⟩
            · rw [hsp]
              simpa using hd
            · rw [hsp]
              simpa using hi
    · rw [if_neg htake] at hpt
      have hmal : malformedCode code := by
        simp only [malformedCode, hsp]
        refine Or.inr (Or.inl ?_)
        simpa using htake
      refine ⟨⟨fun _ => hmal, fun _ => hpt⟩, ?_⟩
      intro h d i hsome
      rw [hsome] at hpt
      exact Option.noConfusion hpt
  · have hnone := parse_none_of_len code hlen
    have hmal : malformedCode code := Or.inl hlen
    refine ⟨⟨fun _ => hmal, fun _ => hnone⟩, ?_⟩
    intro h d i hsome
    rw [hsome] at hnone
    exact Option.noConfusion hnone

theorem alGet_alSet_same {α : Type} (m : List (Str × α)) (k : Str) (v : α) :
    alGet (alSet m k v) k = some v := by
  induction m with
  | nil => simp [alGet, alSet]
  | cons kv rest ih =>
    obtain ⟨k1, v1⟩ := kv
    by_cases hk : k1 = k
    · simp [alSet, hk, alGet]
    · simp [alSet, hk, alGet, ih]

theorem alGet_alSet_ne {α : Type} (m : List (Str × α)) (k k' : Str) (v : α) (h : k' ≠ k) :
    alGet (alSet m k v) k' = alGet m k' := by
  have hks : ¬ k = k' := fun he => h he.symm
  induction m with
  | nil => simp [alGet, alSet, hks]
  | cons kv rest ih =>
    obtain ⟨k1, v1⟩ := kv
    by_cases hk : k1 = k
    · subst hk
      simp [alSet, alGet, hks]
    · simp [alSet, hk, alGet, ih]

theorem alGet_none_iff {α : Type} (m : List (Str × α)) (k : Str) :
    alGet m k = none ↔ k ∉ m.map Prod.fst := by
  induction m with
  | nil => simp [alGet]
  | cons kv rest ih =>
    obtain ⟨k1, v1⟩ := kv
    by_cases hk : k1 = k
    · rw [show alGet ((k1, v1) :: rest) k = if k1 = k then some v1 else alGet rest k from rfl]
      rw [if_pos hk, hk]
      constructor
      · intro h; cases h
      · intro h
        exfalso
        exact h (by rw [List.map_cons]; exact List.mem_cons_self _ _)
    · rw [show alGet ((k1, v1) :: rest) k = if k1 = k then some v1 else alGet rest k from rfl]
      rw [if_neg hk, ih]
      constructor
      · intro h hmem
        rcases List.mem_cons.mp hmem with h1 | h1
        · exact hk h1.symm
        · exact h h1
      · intro h hmem
        exact h (by rw [List.map_cons]; exact List.mem_cons_of_mem _ hmem)

theorem alGet_alUpdate_not_mem {α : Type} : ∀ (data m : List (Str × α)) (k : Str),
    alGet data k = none → alGet (alUpdate m data) k = alGet m k := by
  intro data
  induction data with
  | nil => intro m k _; rfl
  | cons kv rest ih =>
    obtain ⟨k1, v1⟩ := kv
    intro m k h
    have hne : k1 ≠ k := by
      intro he
      rw [he] at h
      simp [alGet] at h
    have hrest : alGet rest k = none := by
      simpa [alGet, hne] using h
    rw [show alUpdate m ((k1, v1) :: rest) = alUpdate (alSet m k1 v1) rest from rfl]
    rw [ih (alSet m k1 v1) k hrest, alGet_alSet_ne m k1 k v1 (fun he => hne he.symm)]

theorem alGet_alUpdate_isSome {α : Type} : ∀ (data m : List (Str × α)) (k : Str),
    (alGet m k).isSome = true → (alGet (alUpdate m data) k).isSome = true := by
  intro data
  induction data with
  | nil => intro m k h; exact h
  | cons kv rest ih =>
    obtain ⟨k1, v1⟩ := kv
    intro m k h
    rw [show alUpdate m ((k1, v1) :: rest) = alUpdate (alSet m k1 v1) rest from rfl]
    refine ih (alSet m k1 v1) k ?_
    by_cases hk : k = k1
    · subst hk
      rw [alGet_alSet_same]
      rfl
    · rw [alGet_alSet_ne m k1 k v1 hk]
      exact h

theorem alGet_alUpdate_mem {α : Type} : ∀ (data m : List (Str × α)) (k : Str) (v : α),
    (data.map Prod.fst).Nodup → alGet data k = some v →
    alGet (alUpdate m data) k = some v := by
  intro data
  induction data with
  | nil => intro m k v _ h; simp [alGet] at h
  | cons kv rest ih =>
    obtain ⟨k1, v1⟩ := kv
    intro m k v hnd h
    simp only [List.map_cons, List.nodup_cons] at hnd
    obtain ⟨hk1, hndrest⟩ := hnd
    rw [show alUpdate m ((k1, v1) :: rest) = alUpdate (alSet m k1 v1) rest from rfl]
    by_cases hk : k1 = k
    · subst hk
      have hv : v1 = v := by simpa [alGet] using h
      subst hv
      have hrest : alGet rest k1 = none := (alGet_none_iff rest k1).mpr hk1
      rw [alGet_alUpdate_not_mem rest (alSet m k1 v1) k1 hrest, alGet_alSet_same]
    · have hrest : alGet rest k = some v := by simpa [alGet, hk] using h
      exact ih (alSet m k1 v1) k v hndrest hrest

theorem poolGet_of_none (S : PoolState) (h ds : Str) (hS : alGet S h = none) :
    poolGet S h ds = [] := by
  unfold poolGet
  rw [hS]

theorem poolGet_of_some (S : PoolState) (h ds : Str) (pools : Pools)
    (hS : alGet S h = some pools) : poolGet S h ds = (alGet pools ds).getD [] := by
  unfold poolGet
  rw [hS]

theorem setUsed_of_none (S : PoolState) (h ds : Str) (j : Nat) (hS : alGet S h = none) :
    setUsed S h ds j = S := by
  unfold setUsed
  rw [hS]

theorem setUsed_of_no_pool (S : PoolState) (h ds : Str) (j : Nat) (pools : Pools)
    (hS : alGet S h = some pools) (hP : alGet pools ds = none) :
    setUsed S h ds j = S := by
  unfold setUsed
  rw [hS]
  show (match alGet pools ds with
    | none => S
    | some lst => alSet S h (alSet pools ds (lst.set j 1))) = S
  rw [hP]

theorem setUsed_of_some (S : PoolState) (h ds : Str) (j : Nat) (pools : Pools) (lst : List Nat)
    (hS : alGet S h = some pools) (hP : alGet pools ds = some lst) :
    setUsed S h ds j = alSet S h (alSet pools ds (lst.set j 1)) := by
  unfold setUsed
  rw [hS]
  show (match alGet pools ds with
    | none => S
    | some lst => alSet S h (alSet pools ds (lst.set j 1))) = _
  rw [hP]

theorem poolGet_setUsed (S : PoolState) (h ds : Str) (j : Nat) (h' ds' : Str) :
    poolGet (setUsed S h ds j) h' ds' =
      if h' = h ∧ ds' = ds then (poolGet S h ds).set j 1 else poolGet S h' ds' := by
  cases hS : alGet S h with
  | none =>
    rw [setUsed_of_none S h ds j hS]
    by_cases hcond : h' = h ∧ ds' = ds
    · obtain ⟨rfl, rfl⟩ := hcond
      rw [if_pos ⟨rfl, rfl⟩, poolGet_of_none S h' ds' hS]
      rfl
    · rw [if_neg hcond]
  | some pools =>
    cases hP : alGet pools ds with
    | none =>
      rw [setUsed_of_no_pool S h ds j pools hS hP]
      by_cases hcond : h' = h ∧ ds' = ds
      · obtain ⟨rfl, rfl⟩ := hcond
        rw [if_pos ⟨rfl, rfl⟩, poolGet_of_some S h' ds' pools hS, hP]
        rfl
      · rw [if_neg hcond]
    | some lst =>
      rw [setUsed_of_some S h ds j pools lst hS hP]
      by_cases hh : h' = h
      · subst hh
        by_cases hd : ds' = ds
        · subst hd
          rw [if_pos ⟨rfl, rfl⟩]
          rw [poolGet_of_some _ h' ds' _ (alGet_alSet_same S h' (alSet pools ds' (lst.set j 1)))]
          rw [alGet_alSet_same, poolGet_of_some S h' ds' pools hS, hP]
          rfl
        · rw [if_neg (fun hc => hd hc.2)]
          rw [poolGet_of_some _ h' ds' _ (alGet_alSet_same S h' (alSet pools ds (lst.set j 1)))]
          rw [alGet_alSet_ne _ _ _ _ hd, poolGet_of_some S h' ds' pools hS]
      · rw [if_neg (fun hc => hh hc.1)]
        unfold poolGet
        rw [alGet_alSet_ne _ _ _ _ hh]

theorem posVal_setUsed (S : PoolState) (h ds : Str) (j : Nat) (h' ds' : Str) (j' : Nat) :
    posVal (setUsed S h ds j) h' ds' j' =
      if h' = h ∧ ds' = ds ∧ j' = j ∧ (posVal S h ds j).isSome = true then some 1
      else posVal S h' ds' j' := by
  unfold posVal
  rw [poolGet_setUsed]
  by_cases hh : h' = h ∧ ds' = ds
  · obtain ⟨rfl, rfl⟩ := hh
    rw [if_pos ⟨rfl, rfl⟩]
    by_cases hj : j' = j
    · subst hj
      by_cases hlt : j' < (poolGet S h' ds').length
      · rw [List.getElem?_set_self hlt]
        rw [if_pos ⟨rfl, rfl, rfl, by simp [List.getElem?_eq_getElem hlt]⟩]
      · have hle : (poolGet S h' ds').length ≤ j' := Nat.le_of_not_lt hlt
        rw [List.set_eq_of_length_le hle]
        rw [if_neg]
        rintro ⟨-, -, -, hsome⟩
        rw [List.getElem?_eq_none hle] at hsome
        simp at hsome
    · rw [List.getElem?_set_ne (fun he => hj he.symm)]
      rw [if_neg (fun hc => hj hc.2.2.1)]
  · rw [if_neg hh]
    rw [if_neg (fun hc => hh ⟨hc.1, hc.2.1⟩)]

theorem posVal_foldl_setUsed : ∀ (l : List VDetail) (S : PoolState) (h ds : Str) (j : Nat),
    posVal (l.foldl (fun s d => setUsed s d.hid (intStr d.denom) d.idx.toNat) S) h ds j =
      if (∃ d ∈ l, d.hid = h ∧ intStr d.denom = ds ∧ d.idx.toNat = j) ∧
          (posVal S h ds j).isSome = true
      then some 1 else posVal S h ds j := by
  intro l
  induction l with
  | nil =>
    intro S h ds j
    rw [List.foldl_nil, if_neg]
    rintro ⟨⟨d, hd, -⟩, -⟩
    cases hd
  | cons d0 rest ih =>
    intro S h ds j
    rw [List.foldl_cons, ih, posVal_setUsed]
    by_cases hC : h = d0.hid ∧ ds = intStr d0.denom ∧ j = d0.idx.toNat ∧
        (posVal S d0.hid (intStr d0.denom) d0.idx.toNat).isSome = true
    · obtain ⟨h1, h2, h3, h4⟩ := hC
      subst h1; subst h2; subst h3
      have hCproof : d0.hid = d0.hid ∧ intStr d0.denom = intStr d0.denom ∧
          d0.idx.toNat = d0.idx.toNat ∧
          (posVal S d0.hid (intStr d0.denom) d0.idx.toNat).isSome = true := ⟨rfl, rfl, rfl, h4⟩
      rw [if_pos hCproof, ite_self]
      have hex : (∃ d ∈ d0 :: rest, d.hid = d0.hid ∧ intStr d.denom = intStr d0.denom ∧
          d.idx.toNat = d0.idx.toNat) := ⟨d0, List.mem_cons_self _ _, rfl, rfl, rfl⟩
      rw [if_pos ⟨hex, h4⟩]
    · rw [if_neg hC]
      by_cases hbase : (posVal S h ds j).isSome = true
      · have hK0 : ¬(d0.hid = h ∧ intStr d0.denom = ds ∧ d0.idx.toNat = j) := by
          rintro ⟨k1, k2, k3⟩
          refine hC ⟨k1.symm, k2.symm, k3.symm, ?_⟩
          rw [k1, k2, k3]
          exact hbase
        by_cases hex : ∃ d ∈ rest, d.hid = h ∧ intStr d.denom = ds ∧ d.idx.toNat = j
        · rw [if_pos ⟨hex, hbase⟩]
          obtain ⟨d, hd, hk⟩ := hex
          rw [if_pos ⟨⟨d, List.mem_cons_of_mem _ hd, hk⟩, hbase⟩]
        · rw [if_neg (fun hc => hex hc.1)]
          rw [if_neg]
          rintro ⟨⟨d, hd, hk⟩, -⟩
          rcases List.mem_cons.mp hd with rfl | hd2
          · exact hK0 hk
          · exact hex ⟨d, hd2, hk⟩
      · rw [if_neg (fun hc => hbase hc.2), if_neg (fun hc => hbase hc.2)]

theorem scanBundle_nil (S : PoolState) (acc : List VDetail) (total : Int) :
    scanBundle S [] acc total = .ok acc total := rfl

theorem scanBundle_cons_fail (S : PoolState) (c : Str) (rest : List Str) (acc : List VDetail)
    (total : Int) (hp : parse_voucher_code c = none) :
    scanBundle S (c :: rest) acc total = .formatError := by
  conv_lhs => unfold scanBundle
  rw [hp]

theorem scanBundle_cons (S : PoolState) (c : Str) (rest : List Str) (acc : List VDetail)
    (total : Int) (h : Str) (d i : Int) (hp : parse_voucher_code c = some (h, d, i)) :
    scanBundle S (c :: rest) acc total =
      (if i - 1 < 0 ∨ ((poolGet S h (intStr d)).length : Int) ≤ i - 1 then .outOfRange c
       else if (poolGet S h (intStr d)).getD (i - 1).toNat 0 = 1 then .alreadyUsed
       else scanBundle S rest (acc ++ [⟨c, d, h, i - 1⟩]) (total + d)) := by
  conv_lhs => unfold scanBundle
  rw [hp]

theorem sumDenoms_cons (c : Str) (rest : List Str) (h : Str) (d i : Int)
    (hp : parse_voucher_code c = some (h, d, i)) :
    sumDenoms (c :: rest) = d + sumDenoms rest := by
  simp [sumDenoms, List.filterMap_cons, hp]

theorem detOf_some (c : Str) (h : Str) (d i : Int) (hp : parse_voucher_code c = some (h, d, i)) :
    detOf c = some ⟨c, d, h, i - 1⟩ := by
  simp [detOf, hp]

theorem scanBundle_ok (S : PoolState) : ∀ (codes : List Str) (acc : List VDetail) (total : Int),
    (∀ c ∈ codes, ValidUnused S c) →
    scanBundle S codes acc total = .ok (acc ++ codes.filterMap detOf) (total + sumDenoms codes) := by
  intro codes
  induction codes with
  | nil =>
    intro acc total _
    rw [scanBundle_nil]
    simp [sumDenoms]
  | cons c rest ih =>
    intro acc total hvalid
    obtain ⟨h, d, i, hp, hge, hlt, hval⟩ := hvalid c (List.mem_cons_self _ _)
    rw [scanBundle_cons S c rest acc total h d i hp]
    rw [if_neg (by omega)]
    rw [if_neg (by rw [hval]; norm_num)]
    rw [ih _ _ (fun x hx => hvalid x (List.mem_cons_of_mem _ hx))]
    rw [sumDenoms_cons c rest h d i hp]
    rw [List.filterMap_cons, detOf_some c h d i hp]
    simp only [List.append_assoc, List.singleton_append]
    rw [Int.add_assoc]

theorem scanBundle_alreadyUsed (S : PoolState) : ∀ (pre : List Str) (c : Str) (post : List Str)
    (acc : List VDetail) (total : Int), (∀ p ∈ pre, ValidUnused S p) → UsedAt S c →
    scanBundle S (pre ++ c :: post) acc total = .alreadyUsed := by
  intro pre
  induction pre with
  | nil =>
    intro c post acc total _ hc
    obtain ⟨h, d, i, hp, hge, hlt, hval⟩ := hc
    rw [List.nil_append, scanBundle_cons S c post acc total h d i hp]
    rw [if_neg (by omega), if_pos hval]
  | cons p0 rest ih =>
    intro c post acc total hpre hc
    obtain ⟨h, d, i, hp, hge, hlt, hval⟩ := hpre p0 (List.mem_cons_self _ _)
    rw [List.cons_append, scanBundle_cons S p0 (rest ++ c :: post) acc total h d i hp]
    rw [if_neg (by omega)]
    rw [if_neg (by rw [hval]; norm_num)]
    exact ih c post _ _ (fun x hx => hpre x (List.mem_cons_of_mem _ hx)) hc

theorem scanBundle_oor (S : PoolState) : ∀ (codes : List Str) (acc : List VDetail) (total : Int)
    (c : Str), scanBundle S codes acc total = .outOfRange c →
    ∃ h d i, parse_voucher_code c = some (h, d, i) ∧
      (i - 1 < 0 ∨ ((poolGet S h (intStr d)).length : Int) ≤ i - 1) := by
  intro codes
  induction codes with
  | nil =>
    intro acc total c h
    rw [scanBundle_nil] at h
    cases h
  | cons c0 rest ih =>
    intro acc total c h
    cases hp : parse_voucher_code c0 with
    | none =>
      rw [scanBundle_cons_fail S c0 rest acc total hp] at h
      cases h
    | some t =>
      obtain ⟨h0, d0, i0⟩ := t
      rw [scanBundle_cons S c0 rest acc total h0 d0 i0 hp] at h
      by_cases hb : i0 - 1 < 0 ∨ ((poolGet S h0 (intStr d0)).length : Int) ≤ i0 - 1
      · rw [if_pos hb] at h
        injection h with hc0
        subst hc0
        exact ⟨h0, d0, i0, hp, hb⟩
      · rw [if_neg hb] at h
        by_cases hu : (poolGet S h0 (intStr d0)).getD (i0 - 1).toNat 0 = 1
        · rw [if_pos hu] at h
          cases h
        · rw [if_neg hu] at h
          exact ih _ _ c h

theorem scanBundle_ok_bounds (S : PoolState) : ∀ (codes : List Str) (acc : List VDetail)
    (total : Int) (ds : List VDetail) (t : Int), scanBundle S codes acc total = .ok ds t →
    ∀ c ∈ codes, ∃ h d i, parse_voucher_code c = some (h, d, i) ∧
      0 ≤ i - 1 ∧ i - 1 < ((poolGet S h (intStr d)).length : Int) := by
  intro codes
  induction codes with
  | nil => intro acc total ds t _ c hc; cases hc
  | cons c0 rest ih =>
    intro acc total ds t h c hc
    cases hp : parse_voucher_code c0 with
    | none =>
      rw [scanBundle_cons_fail S c0 rest acc total hp] at h
      cases h
    | some tr =>
      obtain ⟨h0, d0, i0⟩ := tr
      rw [scanBundle_cons S c0 rest acc total h0 d0 i0 hp] at h
      by_cases hb : i0 - 1 < 0 ∨ ((poolGet S h0 (intStr d0)).length : Int) ≤ i0 - 1
      · rw [if_pos hb] at h
        cases h
      · rw [if_neg hb] at h
        by_cases hu : (poolGet S h0 (intStr d0)).getD (i0 - 1).toNat 0 = 1
        · rw [if_pos hu] at h
          cases h
        · rw [if_neg hu] at h
          rcases List.mem_cons.mp hc with rfl | hc2
          · exact ⟨h0, d0, i0, hp, by omega, by omega⟩
          · exact ih _ _ ds t h c hc2

theorem redeem_eq_of_scan (mid braw : Str) (recs : List Activation) (mem : PoolState)
    (file : Option (Option PoolState)) (rows : List LedgerLine) (time : Str) (rec : Activation)
    (hfind : findActivation recs (pyStrip braw) = some rec) (hne : ¬rec.voucher_codes = []) :
    ∀ r : LoopResult, scanBundle (load_voucher_state mem file) rec.voucher_codes [] 0 = r →
    redeem mid braw (some recs) mem file rows time =
      (match r with
        | .formatError => (.formatError, load_voucher_state mem file, rows)
        | .outOfRange code => (.outOfRange code, load_voucher_state mem file, rows)
        | .alreadyUsed => (.alreadyRedeemed, load_voucher_state mem file, rows)
        | .ok details total =>
          (.success (get_next_transaction_id rows) total,
            details.foldl (fun s d => setUsed s d.hid (intStr d.denom) d.idx.toNat)
              (load_voucher_state mem file),
            rows ++ mkLinesAux (get_next_transaction_id rows) mid time total
              details.length 0 details)) := by
  intro r hscan
  simp only [redeem, hfind, if_neg hne, hscan]

theorem mkLinesAux_map (txId mid time : Str) (total : Int) (count : Nat) :
    ∀ (details : List VDetail) (i : Nat),
    (mkLinesAux txId mid time total count i details).map
        (fun l => (l.transaction_id, l.voucher_code)) =
      details.map (fun d => (txId, d.code)) := by
  intro details
  induction details with
  | nil => intro i; rfl
  | cons d rest ih =>
    intro i
    simp only [mkLinesAux, List.map_cons, ih]

theorem filterMap_detOf_codes : ∀ codes : List Str,
    (∀ c ∈ codes, ∃ h d i, parse_voucher_code c = some (h, d, i)) →
    (codes.filterMap detOf).map (fun d => d.code) = codes := by
  intro codes
  induction codes with
  | nil => intro _; rfl
  | cons c rest ih =>
    intro hall
    obtain ⟨h, d, i, hp⟩ := hall c (List.mem_cons_self _ _)
    rw [List.filterMap_cons, detOf_some c h d i hp]
    simp only [List.map_cons]
    rw [ih (fun x hx => hall x (List.mem_cons_of_mem _ hx))]

/-- C1 (amended): for a redemption of a bundle in which at least one voucher
code decodes to an already-used in-bounds position, where every code before
the first such code decodes to an in-bounds unused position, redeem fails the
entire bundle with AlreadyRedeemedError: the voucher state store stays the
freshly loaded state with no position mutated and no ledger line is appended. -/
theorem redeem_already_used_bundle_aborts
    (mid braw time : Str) (recs : List Activation) (mem : PoolState)
    (file : Option (Option PoolState)) (rows : List LedgerLine) (rec : Activation)
    (pre post : List Str) (c : Str)
    (hfind : findActivation recs (pyStrip braw) = some rec)
    (hcodes : rec.voucher_codes = pre ++ c :: post)
    (hpre : ∀ p ∈ pre, ValidUnused (load_voucher_state mem file) p)
    (hc : UsedAt (load_voucher_state mem file) c) :
    redeem mid braw (some recs) mem file rows time =
      (.alreadyRedeemed, load_voucher_state mem file, rows) := by
  have hne : ¬ rec.voucher_codes = [] := by rw [hcodes]; simp
  have hscan : scanBundle (load_voucher_state mem file) rec.voucher_codes [] 0 = .alreadyUsed := by
    rw [hcodes]
    exact scanBundle_alreadyUsed _ pre c post [] 0 hpre hc
  exact redeem_eq_of_scan mid braw recs mem file rows time rec hfind hne .alreadyUsed hscan

/-- C1 witness: a fresh denomination-2 voucher followed by the used one in a
two-voucher pool is declined whole, with state and ledger untouched. -/
theorem redeem_already_used_bundle_aborts_witness :
    redeem "M001".data "123".data (some actsSecondUsed) memSecondUsed none [] "T".data =
      (.alreadyRedeemed, memSecondUsed, []) := by
  have h := redeem_already_used_bundle_aborts "M001".data "123".data "T".data actsSecondUsed
    memSecondUsed none []
    ⟨"123".data, ["V02-0001-H0001".data, "V02-0002-H0001".data]⟩
    ["V02-0001-H0001".data] [] "V02-0002-H0001".data
    (by decide) (by decide)
    (by
      intro p hp
      have hp2 : p = "V02-0001-H0001".data := by simpa using hp
      rw [hp2]
      exact ⟨"H0001".data, 2, 1, by decide, by decide, by decide, by decide⟩)
    ⟨"H0001".data, 2, 2, by decide, by decide, by decide, by decide⟩
  exact h

/-- C1 counterexample: this bundle holds the used code V02-0001-H0001, yet
because a malformed code precedes it, redeem reports the format error, not
AlreadyRedeemedError, refuting the claim as stated. -/
theorem redeem_used_after_malformed_not_alreadyRedeemed :
    UsedAt memUsed "V02-0001-H0001".data ∧
    "V02-0001-H0001".data ∈ (["XX".data, "V02-0001-H0001".data] : List Str) ∧
    (redeem "M001".data "123".data (some actsMalformedUsed) memUsed none [] "T".data).1 =
      .formatError ∧
    (redeem "M001".data "123".data (some actsMalformedUsed) memUsed none [] "T".data).1 ≠
      .alreadyRedeemed :=
  ⟨⟨"H0001".data, 2, 1, by decide, by decide, by decide, by decide⟩,
    by decide, by decide, by decide⟩

theorem posVal_isSome_of_lt (S : PoolState) (h ds : Str) (j : Nat)
    (hlt : j < (poolGet S h ds).length) : (posVal S h ds j).isSome = true := by
  unfold posVal
  simp [List.getElem?_eq_getElem hlt]

/-- C2: redeeming a bundle whose voucher codes all decode to in-bounds,
currently-unused positions commits: the result is success carrying the
freshly allocated transaction identifier and the sum of the decoded
denominations, the prior ledger rows are kept and exactly one line per
voucher code is appended, all sharing that identifier, and exactly the
decoded positions are flipped to 1 while every other position keeps its
prior value. -/
theorem redeem_fresh_bundle_commits
    (mid braw time : Str) (recs : List Activation) (mem : PoolState)
    (file : Option (Option PoolState)) (rows : List LedgerLine) (rec : Activation)
    (hfind : findActivation recs (pyStrip braw) = some rec)
    (hne : rec.voucher_codes ≠ [])
    (hvalid : ∀ c ∈ rec.voucher_codes, ValidUnused (load_voucher_state mem file) c) :
    (redeem mid braw (some recs) mem file rows time).1 =
      .success (get_next_transaction_id rows) (sumDenoms rec.voucher_codes) ∧
    ((redeem mid braw (some recs) mem file rows time).2.2).take rows.length = rows ∧
    (((redeem mid braw (some recs) mem file rows time).2.2).drop rows.length).map
        (fun l => (l.transaction_id, l.voucher_code)) =
      rec.voucher_codes.map (fun c => (get_next_transaction_id rows, c)) ∧
    (∀ h ds j, posVal (redeem mid braw (some recs) mem file rows time).2.1 h ds j =
      if (h, ds, j) ∈ rec.voucher_codes.filterMap codePos then some 1
      else posVal (load_voucher_state mem file) h ds j) := by
  have hall : ∀ c ∈ rec.voucher_codes, ∃ h d i, parse_voucher_code c = some (h, d, i) := by
    intro c hc
    obtain ⟨h, d, i, hp, -, -, -⟩ := hvalid c hc
    exact ⟨h, d, i, hp⟩
  have hscan := scanBundle_ok (load_voucher_state mem file) rec.voucher_codes [] 0 hvalid
  rw [List.nil_append, Int.zero_add] at hscan
  have hred2 : redeem mid braw (some recs) mem file rows time =
      (.success (get_next_transaction_id rows) (sumDenoms rec.voucher_codes),
       (rec.voucher_codes.filterMap detOf).foldl
         (fun s d => setUsed s d.hid (intStr d.denom) d.idx.toNat)
         (load_voucher_state mem file),
       rows ++ mkLinesAux (get_next_transaction_id rows) mid time
         (sumDenoms rec.voucher_codes) (rec.voucher_codes.filterMap detOf).length 0
         (rec.voucher_codes.filterMap detOf)) :=
    redeem_eq_of_scan mid braw recs mem file rows time rec hfind hne _ hscan
  refine ⟨by rw [hred2], ?_, ?_, ?_⟩
  · rw [hred2]
    exact List.take_left rows _
  · rw [hred2]
    show (List.drop rows.length (rows ++ _)).map _ = _
    rw [List.drop_left, mkLinesAux_map]
    conv_rhs => rw [← filterMap_detOf_codes rec.voucher_codes hall, List.map_map]
    rfl
  · intro h ds j
    rw [hred2]
    show posVal ((rec.voucher_codes.filterMap detOf).foldl _ _) h ds j = _
    rw [posVal_foldl_setUsed]
    by_cases hmem : (h, ds, j) ∈ rec.voucher_codes.filterMap codePos
    · rw [if_pos hmem]
      obtain ⟨c, hc, hcp⟩ := List.mem_filterMap.mp hmem
      obtain ⟨h0, d0, i0, hp, hge, hlt, hval⟩ := hvalid c hc
      rw [show codePos c = some (h0, intStr d0, (i0 - 1).toNat) by simp [codePos, hp]] at hcp
      simp only [Option.some.injEq, Prod.mk.injEq] at hcp
      obtain ⟨he1, he2, he3⟩ := hcp
      subst he1; subst he2; subst he3
      rw [if_pos]
      constructor
      · refine ⟨⟨c, d0, h0, i0 - 1⟩, ?_, rfl, rfl, rfl⟩
        exact List.mem_filterMap.mpr ⟨c, hc, detOf_some c h0 d0 i0 hp⟩
      · exact posVal_isSome_of_lt _ _ _ _ (by omega)
    · rw [if_neg hmem]
      rw [if_neg]
      rintro ⟨⟨d, hd, hk1, hk2, hk3⟩, -⟩
      obtain ⟨c, hc, hdet⟩ := List.mem_filterMap.mp hd
      obtain ⟨h0, d0, i0, hp⟩ := hall c hc
      rw [detOf_some c h0 d0 i0 hp] at hdet
      injection hdet with hdet2
      refine hmem (List.mem_filterMap.mpr ⟨c, hc, ?_⟩)
      rw [show codePos c = some (h0, intStr d0, (i0 - 1).toNat) by simp [codePos, hp]]
      rw [← hdet2] at hk1 hk2 hk3
      simp only [Option.some.injEq, Prod.mk.injEq]
      exact ⟨hk1, hk2, hk3⟩

/-- C2 witness: a fresh 3-voucher bundle of denominations 2, 5 and 10 commits
with transaction identifier TX00001, total 17, and one appended line per code
sharing that identifier. -/
theorem redeem_fresh_bundle_commits_witness :
    (redeem "M001".data "123".data (some actsFresh) memFresh none [] "T".data).1 =
      .success "TX00001".data 17 ∧
    (((redeem "M001".data "123".data (some actsFresh) memFresh none [] "T".data).2.2).drop
        ([] : List LedgerLine).length).map (fun l => (l.transaction_id, l.voucher_code)) =
      [("TX00001".data, "V02-0001-H0001".data), ("TX00001".data, "V05-0001-H0001".data),
       ("TX00001".data, "V10-0001-H0001".data)] := by
  have h := redeem_fresh_bundle_commits "M001".data "123".data "T".data actsFresh memFresh
    none [] ⟨"123".data, ["V02-0001-H0001".data, "V05-0001-H0001".data, "V10-0001-H0001".data]⟩
    (by decide) (by decide)
    (by
      intro c hc
      simp at hc
      rcases hc with rfl | rfl | rfl
      · exact ⟨"H0001".data, 2, 1, by decide, by decide, by decide, by decide⟩
      · exact ⟨"H0001".data, 5, 1, by decide, by decide, by decide, by decide⟩
      · exact ⟨"H0001".data, 10, 1, by decide, by decide, by decide, by decide⟩)
  refine ⟨?_, ?_⟩
  · rw [h.1]
    decide
  · rw [h.2.2.1]
    decide

/-- C4: evaluating redeem on a bundle that repeats one fresh voucher code
shows the defect: the call succeeds with two ledger lines and the doubled
total 4 while exactly one pool position flips from 0 to 1, so the appended
lines are not in one-to-one correspondence with the flipped positions. -/
theorem redeem_duplicate_code_double_line :
    (redeem "M001".data "123".data (some actsDup) memTwo none [] "T".data).1 =
      .success "TX00001".data 4 ∧
    ((redeem "M001".data "123".data (some actsDup) memTwo none [] "T".data).2.2).length = 2 ∧
    (redeem "M001".data "123".data (some actsDup) memTwo none [] "T".data).2.1 =
      [("H0001".data, [("2".data, [1, 0])])] := by
  decide

/-- C9: the bounds check of redeem: the validation loop rejects the leading
code with the out-of-range error exactly when its 0-based index falls outside
the pool of its denomination; and any found bundle containing such a code is
aborted whole: redeem never succeeds, the state store stays the freshly
loaded state, and no ledger line is appended. -/
theorem redeem_bounds_checked :
    (∀ (S : PoolState) (code : Str) (rest : List Str) (acc : List VDetail) (total : Int)
      (h : Str) (d i : Int), parse_voucher_code code = some (h, d, i) →
      (scanBundle S (code :: rest) acc total = .outOfRange code ↔
        (i - 1 < 0 ∨ ((poolGet S h (intStr d)).length : Int) ≤ i - 1))) ∧
    (∀ (mid braw time : Str) (recs : List Activation) (mem : PoolState)
      (file : Option (Option PoolState)) (rows : List LedgerLine) (rec : Activation)
      (c : Str) (h : Str) (d i : Int),
      findActivation recs (pyStrip braw) = some rec →
      c ∈ rec.voucher_codes →
      parse_voucher_code c = some (h, d, i) →
      (i - 1 < 0 ∨ ((poolGet (load_voucher_state mem file) h (intStr d)).length : Int) ≤ i - 1) →
      (∀ tx tot, (redeem mid braw (some recs) mem file rows time).1 ≠ .success tx tot) ∧
      (redeem mid braw (some recs) mem file rows time).2.1 = load_voucher_state mem file ∧
      (redeem mid braw (some recs) mem file rows time).2.2 = rows) := by
  constructor
  · intro S code rest acc total h d i hp
    constructor
    · intro hoor
      obtain ⟨h2, d2, i2, hp2, hb2⟩ := scanBundle_oor S (code :: rest) acc total code hoor
      rw [hp] at hp2
      simp only [Option.some.injEq, Prod.mk.injEq] at hp2
      obtain ⟨e1, e2, e3⟩ := hp2
      subst e1; subst e2; subst e3
      exact hb2
    · intro hb
      rw [scanBundle_cons S code rest acc total h d i hp, if_pos hb]
  · intro mid braw time recs mem file rows rec c h d i hfind hc hp hb
    have hne : ¬ rec.voucher_codes = [] := by
      intro he; rw [he] at hc; cases hc
    cases hscan : scanBundle (load_voucher_state mem file) rec.voucher_codes [] 0 with
    | formatError =>
      have hred2 : redeem mid braw (some recs) mem file rows time =
          (.formatError, load_voucher_state mem file, rows) :=
        redeem_eq_of_scan mid braw recs mem file rows time rec hfind hne _ hscan
      refine ⟨fun tx tot => ?_, by rw [hred2], by rw [hred2]⟩
      rw [hred2]
      intro hcon
      cases hcon
    | outOfRange code2 =>
      have hred2 : redeem mid braw (some recs) mem file rows time =
          (.outOfRange code2, load_voucher_state mem file, rows) :=
        redeem_eq_of_scan mid braw recs mem file rows time rec hfind hne _ hscan
      refine ⟨fun tx tot => ?_, by rw [hred2], by rw [hred2]⟩
      rw [hred2]
      intro hcon
      cases hcon
    | alreadyUsed =>
      have hred2 : redeem mid braw (some recs) mem file rows time =
          (.alreadyRedeemed, load_voucher_state mem file, rows) :=
        redeem_eq_of_scan mid braw recs mem file rows time rec hfind hne _ hscan
      refine ⟨fun tx tot => ?_, by rw [hred2], by rw [hred2]⟩
      rw [hred2]
      intro hcon
      cases hcon
    | ok details total2 =>
      exfalso
      obtain ⟨h2, d2, i2, hp2, hge2, hlt2⟩ :=
        scanBundle_ok_bounds (load_voucher_state mem file) rec.voucher_codes [] 0
          details total2 hscan c hc
      rw [hp] at hp2
      simp only [Option.some.injEq, Prod.mk.injEq] at hp2
      obtain ⟨e1, e2, e3⟩ := hp2
      subst e1; subst e2; subst e3
      omega

/-- C9 witness: with the configured denomination-2 pool length 80, the code
for 1-based index 81 (0-based 80) is rejected out of range and aborts its
bundle appending nothing, while 1-based index 80 (0-based 79) passes the
bounds check. -/
theorem redeem_bounds_checked_witness :
    scanBundle mem80 ["V02-0081-H0001".data] [] 0 = .outOfRange "V02-0081-H0001".data ∧
    scanBundle mem80 ["V02-0080-H0001".data] [] 0 ≠ .outOfRange "V02-0080-H0001".data ∧
    (redeem "M001".data "123".data (some acts81) mem80 none [] "T".data).2.2 = [] := by
  refine ⟨?_, ?_, ?_⟩
  · exact (redeem_bounds_checked.1 mem80 _ [] [] 0 "H0001".data 2 81 (by decide)).mpr (by decide)
  · intro hcon
    have hb := (redeem_bounds_checked.1 mem80 _ [] [] 0 "H0001".data 2 80 (by decide)).mp hcon
    revert hb
    decide
  · exact (redeem_bounds_checked.2 "M001".data "123".data "T".data acts81 mem80 none []
      ⟨"123".data, ["V02-0081-H0001".data]⟩ "V02-0081-H0001".data "H0001".data 2 81
      (by decide) (by decide) (by decide) (by decide)).2.2

/-- C5 counterexample: the household identifier H1 followed by a space is
non-empty and contains no separator character, yet decoding the encoded code
returns the stripped identifier H1, not the identifier that was encoded, so
the round-trip law fails as stated. -/
theorem roundtrip_fails_trailing_space :
    ("H1 ".data ≠ ([] : Str)) ∧ '-' ∉ "H1 ".data ∧
    parse_voucher_code (format_voucher_code "H1 ".data 2 1) = some ("H1".data, 2, 1) ∧
    parse_voucher_code (format_voucher_code "H1 ".data 2 1) ≠ some ("H1 ".data, 2, 1) :=
  ⟨by decide, by decide, by decide, by decide⟩

/-- C5 (amended): decoding reproduces the encoded triple for every household
identifier that is non-empty, contains no separator character and does not
end in a whitespace character, and all non-negative denomination and index. -/
theorem parse_format_roundtrip (h : Str) (hne : h ≠ []) (hnd : '-' ∉ h)
    (hlast : ∀ c, h.getLast? = some c → isSpace c = false)
    (d i : Int) (hd : 0 ≤ d) (hi : 0 ≤ i) :
    parse_voucher_code (format_voucher_code h d i) = some (h, d, i) :=
  parse_format_core h hne hnd hlast d i hd hi

/-- C5 witness: the round trip holds at H0001 with denomination 2, index 1. -/
theorem parse_format_roundtrip_witness :
    parse_voucher_code (format_voucher_code "H0001".data 2 1) = some ("H0001".data, 2, 1) :=
  parse_format_roundtrip "H0001".data (by decide) (by decide)
    (by
      intro c hc
      have h1 : ("H0001".data : Str).getLast? = some '1' := by decide
      rw [h1] at hc
      injection hc with hc2
      rw [← hc2]
      decide) 2 1 (by decide) (by decide)

theorem hidMax_cons (s : Str) (rest : List Str) (acc : Nat) :
    hidMax (s :: rest) acc =
      if (decide (s.take 1 = "H".data) && pyIsdigit (s.drop 1)) = true
      then hidMax rest (max acc (listVal 0 (s.drop 1))) else hidMax rest acc := by
  conv_lhs => unfold hidMax

theorem txMax_cons (row : LedgerLine) (rest : List LedgerLine) (acc : Nat) :
    txMax (row :: rest) acc =
      if (decide (row.transaction_id.take 2 = "TX".data) &&
          pyIsdigit (row.transaction_id.drop 2)) = true
      then (if listVal 0 (row.transaction_id.drop 2) > acc
            then txMax rest (listVal 0 (row.transaction_id.drop 2))
            else txMax rest acc)
      else txMax rest acc := by
  conv_lhs => unfold txMax

theorem hidMax_eq : ∀ (l : List Str) (acc : Nat),
    hidMax l acc = (l.filterMap (fun s =>
      if s.take 1 = "H".data && pyIsdigit (s.drop 1)
      then some (listVal 0 (s.drop 1)) else none)).foldl max acc := by
  intro l
  induction l with
  | nil => intro acc; rfl
  | cons s rest ih =>
    intro acc
    rw [hidMax_cons, List.filterMap_cons]
    by_cases hcond : (decide (s.take 1 = "H".data) && pyIsdigit (s.drop 1)) = true
    · rw [if_pos hcond, if_pos hcond, ih, List.foldl_cons]
    · rw [if_neg hcond, if_neg hcond, ih]

theorem txMax_eq : ∀ (l : List LedgerLine) (acc : Nat),
    txMax l acc = (l.filterMap (fun row =>
      if row.transaction_id.take 2 = "TX".data && pyIsdigit (row.transaction_id.drop 2)
      then some (listVal 0 (row.transaction_id.drop 2)) else none)).foldl max acc := by
  intro l
  induction l with
  | nil => intro acc; rfl
  | cons row rest ih =>
    intro acc
    rw [txMax_cons, List.filterMap_cons]
    by_cases hcond : (decide (row.transaction_id.take 2 = "TX".data) &&
        pyIsdigit (row.transaction_id.drop 2)) = true
    · rw [if_pos hcond, if_pos hcond, List.foldl_cons]
      by_cases hgt : listVal 0 (row.transaction_id.drop 2) > acc
      · rw [if_pos hgt, ih]
        have hmax : max acc (listVal 0 (row.transaction_id.drop 2)) =
            listVal 0 (row.transaction_id.drop 2) := by omega
        rw [hmax]
      · rw [if_neg hgt, ih]
        have hmax : max acc (listVal 0 (row.transaction_id.drop 2)) = acc := by omega
        rw [hmax]
    · rw [if_neg hcond, if_neg hcond, ih]

/-- C7: both allocators follow the spec rule nextId: scan the identifiers
matching the tag followed by digits, ignore everything else, and return the
tag with the maximum numeric suffix plus one zero-padded (width 4 for H over
the household mapping values, width 5 for TX over the ledger identifiers),
padding 1 when nothing matches; in particular H0001 and H0003 yield H0004. -/
theorem next_id_allocators_spec :
    (∀ m : List (Str × Str),
      get_next_household_id m = specNextId "H".data 4 (m.map Prod.snd)) ∧
    (∀ rows : List LedgerLine,
      get_next_transaction_id rows =
        specNextId "TX".data 5 (rows.map LedgerLine.transaction_id)) ∧
    get_next_household_id [("A".data, "H0001".data), ("B".data, "H0003".data)] =
      "H0004".data := by
  have hH : ∀ m : List (Str × Str),
      get_next_household_id m = specNextId "H".data 4 (m.map Prod.snd) := by
    intro m
    by_cases hm : m = []
    · subst hm
      rw [show get_next_household_id [] = "H0001".data by rfl]
      decide
    · unfold get_next_household_id specNextId
      rw [if_neg hm, hidMax_eq]
      rfl
  refine ⟨hH, ?_, by rw [hH]; decide⟩
  intro rows
  unfold get_next_transaction_id specNextId
  rw [txMax_eq, List.filterMap_map]
  rfl

theorem register_empty (r : Registry) (fin_raw : Str) (hne : normalize_fin fin_raw = []) :
    register_household r fin_raw = (([], [], false, some "FIN is required.".data), r) := by
  simp only [register_household]
  rw [if_pos hne]

theorem register_existing (r : Registry) (fin_raw : Str) (hid : Str)
    (hne : ¬ normalize_fin fin_raw = [])
    (hget : alGet r.fin_to_household (normalize_fin fin_raw) = some hid) :
    register_household r fin_raw =
      ((normalize_fin fin_raw, hid, true, none),
       if (alGet r.household_voucher_state hid).isNone = true
       then init_voucher_state r hid else r) := by
  simp only [register_household]
  rw [if_neg hne, hget]

theorem register_new (r : Registry) (fin_raw : Str)
    (hne : ¬ normalize_fin fin_raw = [])
    (hget : alGet r.fin_to_household (normalize_fin fin_raw) = none) :
    register_household r fin_raw =
      ((normalize_fin fin_raw, get_next_household_id r.fin_to_household, false, none),
       init_voucher_state
         (Registry.mk
           (alSet r.fin_to_household (normalize_fin fin_raw)
             (get_next_household_id r.fin_to_household))
           r.household_voucher_state r.voucher_counts)
         (get_next_household_id r.fin_to_household)) := by
  simp only [register_household]
  rw [if_neg hne, hget]

/-- C8: registration is idempotent: after any successful registration of a
raw input, a second call whose raw input normalizes to the same national
identifier returns the same household identifier with alreadyExisted true
and no error, and leaves the identifier mapping unchanged, allocating no new
household identifier. -/
theorem register_household_idempotent (r : Registry) (raw1 raw2 fin hid : Str) (b : Bool)
    (r1 : Registry)
    (h1 : register_household r raw1 = ((fin, hid, b, none), r1))
    (h2 : normalize_fin raw2 = fin) :
    (register_household r1 raw2).1 = (fin, hid, true, none) ∧
    (register_household r1 raw2).2.fin_to_household = r1.fin_to_household := by
  have hstate : ¬ fin = [] ∧ alGet r1.fin_to_household fin = some hid := by
    by_cases hne : normalize_fin raw1 = []
    · rw [register_empty r raw1 hne] at h1
      simp only [Prod.mk.injEq] at h1
      exact absurd h1.1.2.2.2.symm (by simp)
    · cases hget : alGet r.fin_to_household (normalize_fin raw1) with
      | some hid0 =>
        rw [register_existing r raw1 hid0 hne hget] at h1
        simp only [Prod.mk.injEq] at h1
        obtain ⟨⟨e1, e2, -, -⟩, e5⟩ := h1
        constructor
        · rw [← e1]; exact hne
        · rw [← e5, ← e1, ← e2]
          by_cases hmiss : (alGet r.household_voucher_state hid0).isNone = true
          · rw [if_pos hmiss]
            exact hget
          · rw [if_neg hmiss]
            exact hget
      | none =>
        rw [register_new r raw1 hne hget] at h1
        simp only [Prod.mk.injEq] at h1
        obtain ⟨⟨e1, e2, -, -⟩, e5⟩ := h1
        constructor
        · rw [← e1]; exact hne
        · rw [← e5, ← e1, ← e2]
          exact alGet_alSet_same _ _ _
  obtain ⟨hfinne, hget1⟩ := hstate
  have hne2 : ¬ normalize_fin raw2 = [] := by rw [h2]; exact hfinne
  have hget2 : alGet r1.fin_to_household (normalize_fin raw2) = some hid := by
    rw [h2]; exact hget1
  rw [register_existing r1 raw2 hid hne2 hget2]
  refine ⟨by rw [h2], ?_⟩
  by_cases hmiss : (alGet r1.household_voucher_state hid).isNone = true
  · rw [if_pos hmiss]
    rfl
  · rw [if_neg hmiss]

/-- C8 witness: registering ab then the raw variant with spaces and lower
case returns the same household identifier H0001, alreadyExisted true, no
error, and the identifier mapping is unchanged. -/
theorem register_household_idempotent_witness :
    (register_household (register_household regEmpty "ab".data).2 " aB ".data).1 =
      ("AB".data, "H0001".data, true, none) ∧
    (register_household (register_household regEmpty "ab".data).2 " aB ".data).2.fin_to_household
      = (register_household regEmpty "ab".data).2.fin_to_household :=
  register_household_idempotent regEmpty "ab".data " aB ".data "AB".data "H0001".data false
    (register_household regEmpty "ab".data).2 (by decide) (by decide)

/-- C10: load_voucher_state merges instead of replacing: a missing file or a
non-dict JSON value leaves the in-memory state unchanged; every household key
in memory stays present after loading a dict; keys of the file dict take the
file value; a key absent from the file dict keeps its in-memory value; and a
household entry deleted from the durable file while marked used in memory is
still observed by the double-spend check of redeem. -/
theorem load_voucher_state_merges :
    (∀ mem : PoolState, load_voucher_state mem none = mem ∧
      load_voucher_state mem (some none) = mem) ∧
    (∀ (mem data : PoolState) (k : Str), (alGet mem k).isSome = true →
      (alGet (load_voucher_state mem (some (some data))) k).isSome = true) ∧
    (∀ (mem data : PoolState) (k : Str) (v : Pools), (data.map Prod.fst).Nodup →
      alGet data k = some v → alGet (load_voucher_state mem (some (some data))) k = some v) ∧
    (∀ (mem data : PoolState) (k : Str), alGet data k = none →
      alGet (load_voucher_state mem (some (some data))) k = alGet mem k) ∧
    (∀ (mid braw time : Str) (recs : List Activation) (mem data : PoolState)
      (rows : List LedgerLine) (rec : Activation) (c h : Str) (d i : Int),
      findActivation recs (pyStrip braw) = some rec →
      rec.voucher_codes = [c] →
      parse_voucher_code c = some (h, d, i) →
      alGet data h = none →
      UsedAt mem c →
      (redeem mid braw (some recs) mem (some (some data)) rows time).1 = .alreadyRedeemed) := by
  refine ⟨fun mem => ⟨rfl, rfl⟩, ?_, ?_, ?_, ?_⟩
  · intro mem data k h
    exact alGet_alUpdate_isSome data mem k h
  · intro mem data k v hnd h
    exact alGet_alUpdate_mem data mem k v hnd h
  · intro mem data k h
    exact alGet_alUpdate_not_mem data mem k h
  · intro mid braw time recs mem data rows rec c h d i hfind hcodes hp hdata hused
    obtain ⟨h0, d0, i0, hp0, hge, hlt, hval⟩ := hused
    rw [hp] at hp0
    simp only [Option.some.injEq, Prod.mk.injEq] at hp0
    obtain ⟨e1, e2, e3⟩ := hp0
    subst e1; subst e2; subst e3
    have hpool : ∀ ds : Str,
        poolGet (load_voucher_state mem (some (some data))) h ds = poolGet mem h ds := by
      intro ds
      unfold poolGet
      rw [show load_voucher_state mem (some (some data)) = alUpdate mem data from rfl]
      rw [alGet_alUpdate_not_mem data mem h hdata]
    have hused2 : UsedAt (load_voucher_state mem (some (some data))) c := by
      refine ⟨h, d, i, hp, hge, ?_, ?_⟩
      · rw [hpool]; exact hlt
      · rw [hpool]; exact hval
    have hne : ¬ rec.voucher_codes = [] := by rw [hcodes]; simp
    have hscan : scanBundle (load_voucher_state mem (some (some data)))
        rec.voucher_codes [] 0 = .alreadyUsed := by
      rw [hcodes]
      exact scanBundle_alreadyUsed _ [] c [] [] 0 (by intro p hp2; cases hp2) hused2
    have hred2 : redeem mid braw (some recs) mem (some (some data)) rows time =
        (.alreadyRedeemed, load_voucher_state mem (some (some data)), rows) :=
      redeem_eq_of_scan mid braw recs mem (some (some data)) rows time rec hfind hne _ hscan
    rw [hred2]

/-- C10 witness: with household H0001 used in memory and a durable dict that
dropped H0001 but holds H0002, loading keeps H0001 with its in-memory value,
takes the file value for H0002, and redeeming the used voucher is declined. -/
theorem load_voucher_state_merges_witness :
    load_voucher_state memUsed none = memUsed ∧
    alGet (load_voucher_state memUsed (some (some [("H0002".data, [])]))) "H0002".data =
      some [] ∧
    alGet (load_voucher_state memUsed (some (some [("H0002".data, [])]))) "H0001".data =
      alGet memUsed "H0001".data ∧
    (redeem "M001".data "123".data (some [⟨"123".data, ["V02-0001-H0001".data]⟩]) memUsed
      (some (some [("H0002".data, [])])) [] "T".data).1 = .alreadyRedeemed := by
  refine ⟨(load_voucher_state_merges.1 memUsed).1, ?_, ?_, ?_⟩
  · exact load_voucher_state_merges.2.2.1 memUsed [("H0002".data, [])] "H0002".data []
      (by decide) (by decide)
  · exact load_voucher_state_merges.2.2.2.1 memUsed [("H0002".data, [])] "H0001".data
      (by decide)
  · exact load_voucher_state_merges.2.2.2.2 "M001".data "123".data "T".data
      [⟨"123".data, ["V02-0001-H0001".data]⟩] memUsed [("H0002".data, [])] []
      ⟨"123".data, ["V02-0001-H0001".data]⟩ "V02-0001-H0001".data "H0001".data 2 1
      (by decide) (by decide) (by decide) (by decide)
      ⟨"H0001".data, 2, 1, by decide, by decide, by decide, by decide⟩

/-- C6 witness: a one-segment code is rejected as malformed, and a well
formed code yields the household segment of the stripped split. -/
theorem parse_voucher_code_spec_witness :
    parse_voucher_code "V02".data = none ∧
    "H0001".data = (splitOnDash (pyStrip "V02-0001-H0001".data)).getD 2 [] :=
  ⟨((parse_voucher_code_spec "V02".data).1).mpr (Or.inl (by decide)),
    ((parse_voucher_code_spec "V02-0001-H0001".data).2 "H0001".data 2 1 (by decide)).1⟩
